import Mathlib

/-!
Verification of the rets-data-portal repository against its specification.

This file shallowly embeds the parts of the Python source that the claims
concern:

* `src/utils.py`: `CacheEntry`, `TTLCache`, `get_cached_data` — a TTL cache
  with LRU eviction.  Python `time.time()` is modelled as an explicit `now`
  argument (a `Nat` tick count); Python dicts are modelled as association
  lists that keep insertion order, with in-place update on existing keys,
  exactly as CPython dicts behave.
* `src/smart_suggestions.py`: `_fix_rets_operators` — seven `re.sub` passes
  over the query string; the regex engine semantics (leftmost match, greedy
  backtracking of `[^=]+`, restart after the replaced region) are embedded
  directly for these fixed patterns.
* `src/clients/rets_client.py`: `RETSClient.connect`,
  `RESOWebAPIClient.connect`, `RETSClient.get_metadata`,
  `RETSClient.execute_query`, `RETSClient._parse_search_response` — the HTTP
  layer is abstracted as an oracle from requests to outcomes (a status code
  together with already-parsed body data, or a raised request exception);
  everything the Python code does with those outcomes is embedded faithfully.
-/

/-! ## Python dict as an insertion-ordered association list -/

section PyDict

variable {K : Type} {A : Type} [DecidableEq K]

/-- Python `d[k]` lookup returning `none` when the key is absent. -/
def dictGet (l : List (K × A)) (k : K) : Option A :=
  match l with
  | [] => none
  | (k', v) :: t => if k' = k then some v else dictGet t k

/-- Python `d[k] = v`: update in place when the key exists (keeping its
position, as CPython dicts do), otherwise append at the end. -/
def dictSet (l : List (K × A)) (k : K) (v : A) : List (K × A) :=
  match l with
  | [] => [(k, v)]
  | (k', v') :: t => if k' = k then (k', v) :: t else (k', v') :: dictSet t k v

/-- Python `del d[k]`: remove the first (in a real dict: only) binding of `k`. -/
def dictDel (l : List (K × A)) (k : K) : List (K × A) :=
  match l with
  | [] => []
  | (k', v') :: t => if k' = k then t else (k', v') :: dictDel t k

theorem dictGet_dictSet_self (l : List (K × A)) (k : K) (v : A) :
    dictGet (dictSet l k v) k = some v := by
  induction l with
  | nil => simp [dictSet, dictGet]
  | cons p t ih =>
    obtain ⟨k', v'⟩ := p
    by_cases h : k' = k
    · simp [dictSet, dictGet, h]
    · simp [dictSet, dictGet, h, ih]

theorem dictGet_dictSet_ne (l : List (K × A)) (k k' : K) (v : A) (h : k' ≠ k) :
    dictGet (dictSet l k v) k' = dictGet l k' := by
  have h' : k ≠ k' := fun hh => h hh.symm
  induction l with
  | nil => simp [dictSet, dictGet, h']
  | cons p t ih =>
    obtain ⟨k0, v0⟩ := p
    by_cases h0 : k0 = k
    · subst h0
      simp [dictSet, dictGet, h']
    · by_cases h1 : k0 = k'
      · simp [dictSet, dictGet, h0, h1, h]
      · simp [dictSet, dictGet, h0, h1, ih]

theorem dictGet_dictDel_ne (l : List (K × A)) (k k' : K) (h : k' ≠ k) :
    dictGet (dictDel l k) k' = dictGet l k' := by
  have h' : k ≠ k' := fun hh => h hh.symm
  induction l with
  | nil => simp [dictDel]
  | cons p t ih =>
    obtain ⟨k0, v0⟩ := p
    by_cases h0 : k0 = k
    · subst h0
      simp [dictDel, dictGet, h']
    · by_cases h1 : k0 = k'
      · simp [dictDel, dictGet, h0, h1, h]
      · simp [dictDel, dictGet, h0, h1, ih]

theorem dictGet_eq_none_of_forall (l : List (K × A)) (k : K)
    (h : ∀ p ∈ l, Prod.fst p ≠ k) : dictGet l k = none := by
  induction l with
  | nil => rfl
  | cons p t ih =>
    obtain ⟨k0, v0⟩ := p
    have hk0 : k0 ≠ k := h (k0, v0) (by simp)
    simp only [dictGet, if_neg hk0]
    exact ih (fun q hq => h q (List.mem_cons_of_mem _ hq))

theorem dictGet_dictDel_self (l : List (K × A)) (k : K)
    (h : (l.map Prod.fst).Nodup) : dictGet (dictDel l k) k = none := by
  induction l with
  | nil => rfl
  | cons p t ih =>
    obtain ⟨k0, v0⟩ := p
    simp only [List.map_cons, List.nodup_cons] at h
    by_cases h0 : k0 = k
    · subst h0
      simp only [dictDel, if_pos rfl]
      refine dictGet_eq_none_of_forall t k0 ?_
      intro q hq hfst
      exact h.1 (hfst ▸ List.mem_map_of_mem Prod.fst hq)
    · simp only [dictDel, if_neg h0, dictGet, if_neg h0]
      exact ih h.2

theorem length_dictDel (l : List (K × A)) (k : K) (v : A)
    (h : dictGet l k = some v) : (dictDel l k).length + 1 = l.length := by
  induction l with
  | nil => simp [dictGet] at h
  | cons p t ih =>
    obtain ⟨k0, v0⟩ := p
    by_cases h0 : k0 = k
    · simp [dictDel, h0]
    · simp only [dictGet, if_neg h0] at h
      simp [dictDel, h0, ih h]

theorem length_dictSet_absent (l : List (K × A)) (k : K) (v : A)
    (h : dictGet l k = none) : (dictSet l k v).length = l.length + 1 := by
  induction l with
  | nil => simp [dictSet]
  | cons p t ih =>
    obtain ⟨k0, v0⟩ := p
    by_cases h0 : k0 = k
    · simp [dictGet, h0] at h
    · simp only [dictGet, if_neg h0] at h
      simp [dictSet, h0, ih h]

theorem length_dictSet_le (l : List (K × A)) (k : K) (v : A) :
    (dictSet l k v).length ≤ l.length + 1 := by
  induction l with
  | nil => simp [dictSet]
  | cons p t ih =>
    obtain ⟨k0, v0⟩ := p
    by_cases h0 : k0 = k
    · simp [dictSet, h0]
    · simp only [dictSet, if_neg h0, List.length_cons]
      omega

theorem length_dictDel_le (l : List (K × A)) (k : K) :
    (dictDel l k).length ≤ l.length := by
  induction l with
  | nil => simp [dictDel]
  | cons p t ih =>
    obtain ⟨k0, v0⟩ := p
    by_cases h0 : k0 = k
    · simp [dictDel, h0]
    · simp only [dictDel, if_neg h0, List.length_cons]
      omega

theorem isSome_dictGet_of_mem_keys (l : List (K × A)) (k : K)
    (h : k ∈ l.map Prod.fst) : (dictGet l k).isSome := by
  induction l with
  | nil => simp at h
  | cons p t ih =>
    obtain ⟨k0, v0⟩ := p
    by_cases h0 : k0 = k
    · simp [dictGet, h0]
    · simp only [List.map_cons, List.mem_cons] at h
      rcases h with h | h
      · exact absurd h.symm h0
      · simp [dictGet, h0, ih h]

theorem mapfst_dictSet_congr {B : Type} (l1 : List (K × A)) (l2 : List (K × B))
    (k : K) (a : A) (b : B) (h : l1.map Prod.fst = l2.map Prod.fst) :
    (dictSet l1 k a).map Prod.fst = (dictSet l2 k b).map Prod.fst := by
  induction l1 generalizing l2 with
  | nil =>
    cases l2 with
    | nil => simp [dictSet]
    | cons q u => simp at h
  | cons p t ih =>
    cases l2 with
    | nil => simp at h
    | cons q u =>
      obtain ⟨k1, v1⟩ := p
      obtain ⟨k2, v2⟩ := q
      simp only [List.map_cons, List.cons.injEq] at h
      obtain ⟨hk, ht⟩ := h
      subst hk
      by_cases h1 : k1 = k
      · simp only [dictSet, if_pos h1, List.map_cons, List.cons.injEq]
        exact ⟨trivial, ht⟩
      · simp only [dictSet, if_neg h1, List.map_cons, List.cons.injEq]
        exact ⟨trivial, ih u ht⟩

theorem mapfst_dictDel_congr {B : Type} (l1 : List (K × A)) (l2 : List (K × B))
    (k : K) (h : l1.map Prod.fst = l2.map Prod.fst) :
    (dictDel l1 k).map Prod.fst = (dictDel l2 k).map Prod.fst := by
  induction l1 generalizing l2 with
  | nil =>
    cases l2 with
    | nil => simp [dictDel]
    | cons q u => simp at h
  | cons p t ih =>
    cases l2 with
    | nil => simp at h
    | cons q u =>
      obtain ⟨k1, v1⟩ := p
      obtain ⟨k2, v2⟩ := q
      simp only [List.map_cons, List.cons.injEq] at h
      obtain ⟨hk, ht⟩ := h
      subst hk
      by_cases h1 : k1 = k
      · simp only [dictDel, if_pos h1]
        exact ht
      · simp only [dictDel, if_neg h1, List.map_cons, List.cons.injEq]
        exact ⟨trivial, ih u ht⟩

theorem mapfst_dictSet_mem (l : List (K × A)) (k : K) (v : A)
    (h : k ∈ l.map Prod.fst) : (dictSet l k v).map Prod.fst = l.map Prod.fst := by
  induction l with
  | nil => simp at h
  | cons p t ih =>
    obtain ⟨k0, v0⟩ := p
    by_cases h0 : k0 = k
    · simp [dictSet, h0]
    · simp only [List.map_cons, List.mem_cons] at h
      rcases h with h | h
      · exact absurd h.symm h0
      · simp [dictSet, h0, ih h]

end PyDict

/-! ## TTLCache (src/utils.py) -/

/-- A cache entry with TTL support (`CacheEntry.__init__` stores the data, the
creation time, and the TTL). -/
structure CacheEntry (V : Type) where
  data : V
  created_at : Nat
  ttl_seconds : Nat
deriving DecidableEq, Repr

/-- Python `CacheEntry.is_expired`: `time.time() - self.created_at > self.ttl_seconds`. -/
def CacheEntry.is_expired {V : Type} (e : CacheEntry V) (now : Nat) : Bool :=
  now - e.created_at > e.ttl_seconds

/-- The `TTLCache` object state: the entry dict, the default TTL, the size
bound, and the access-time dict used for LRU eviction. -/
structure TTLCache (K V : Type) where
  cache : List (K × CacheEntry V)
  default_ttl_seconds : Nat
  max_size : Nat
  access_times : List (K × Nat)
deriving DecidableEq, Repr

section TTLCacheOps

variable {K V : Type} [DecidableEq K]

/-- Python `TTLCache.__init__`. -/
def TTLCache.init (default_ttl_seconds max_size : Nat) : TTLCache K V :=
  { cache := [], default_ttl_seconds := default_ttl_seconds,
    max_size := max_size, access_times := [] }

/-- Python `TTLCache._remove_entry`: delete the key from both dicts, returning
whether the key was present in the entry dict. -/
def TTLCache.remove_entry (st : TTLCache K V) (key : K) : TTLCache K V × Bool :=
  if (dictGet st.cache key).isSome then
    ({ st with cache := dictDel st.cache key,
               access_times := dictDel st.access_times key }, true)
  else (st, false)

/-- The key selected by Python `min(keys, key=lambda k: access_times[k])`:
the first key attaining the minimal access time, scanning in dict order. -/
def argminAcc (best : K × Nat) : List (K × Nat) → K
  | [] => best.1
  | q :: rest => if q.2 < best.2 then argminAcc q rest else argminAcc best rest

/-- Python `TTLCache._evict_lru`: no-op when `access_times` is empty,
otherwise remove the least-recently-accessed key. -/
def TTLCache.evict_lru (st : TTLCache K V) : TTLCache K V :=
  match st.access_times with
  | [] => st
  | p :: rest => (st.remove_entry (argminAcc p rest)).1

/-- Python `TTLCache.get`: a fresh entry is returned and its access time
refreshed; an expired entry is removed (self-healing) and the default —
modelled as `none` — is returned; a missing key returns the default. -/
def TTLCache.get (st : TTLCache K V) (now : Nat) (key : K) :
    Option V × TTLCache K V :=
  match dictGet st.cache key with
  | some entry =>
    if ¬entry.is_expired now then
      (some entry.data, { st with access_times := dictSet st.access_times key now })
    else (none, (st.remove_entry key).1)
  | none => (none, st)

/-- Python `TTLCache.set`: fall back to the default TTL, evict the LRU entry
when at capacity, then store the entry and record the access time. -/
def TTLCache.set (st : TTLCache K V) (now : Nat) (key : K) (value : V)
    (ttl : Option Nat) : TTLCache K V :=
  let ttl_seconds := ttl.getD st.default_ttl_seconds
  let st1 := if st.cache.length ≥ st.max_size then st.evict_lru else st
  { st1 with
    cache := dictSet st1.cache key ⟨value, now, ttl_seconds⟩,
    access_times := dictSet st1.access_times key now }

/-- Python `TTLCache.delete`. -/
def TTLCache.delete (st : TTLCache K V) (key : K) : TTLCache K V × Bool :=
  st.remove_entry key

/-- Python `TTLCache.clear`. -/
def TTLCache.clear (st : TTLCache K V) : TTLCache K V :=
  { st with cache := [], access_times := [] }

/-- Python `TTLCache.clear_expired`: collect the expired keys, remove each,
and return how many were removed. -/
def TTLCache.clear_expired (st : TTLCache K V) (now : Nat) : TTLCache K V × Nat :=
  let expired_keys := (st.cache.filter (fun p => p.2.is_expired now)).map Prod.fst
  (expired_keys.foldl (fun s k => (s.remove_entry k).1) st, expired_keys.length)

end TTLCacheOps

/-! ## C1: get-after-set and self-healing expiry -/

/-- C1. Immediately after `set key value ttl`, `get key` returns `value`; and
whenever `get` finds an entry whose age exceeds its TTL it returns the
default (`none`) and removes the entry, so the entry count drops by one. -/
theorem c1_get_after_set_and_expiry {K V : Type} [DecidableEq K]
    (st : TTLCache K V) (now : Nat) (key : K) (value : V) (ttl : Nat) :
    (((st.set now key value (some ttl)).get now key).1 = some value)
    ∧ (∀ entry : CacheEntry V, dictGet st.cache key = some entry →
        now - entry.created_at > entry.ttl_seconds →
        (st.get now key).1 = none
        ∧ (st.get now key).2.cache = dictDel st.cache key
        ∧ (st.get now key).2.cache.length + 1 = st.cache.length) := by
  constructor
  · have hget : dictGet (st.set now key value (some ttl)).cache key
        = some ⟨value, now, ttl⟩ := dictGet_dictSet_self _ key _
    simp only [TTLCache.get, hget, CacheEntry.is_expired]
    have : ¬(now - now > ttl) := by omega
    simp [this]
  · intro entry hentry hexp
    have hexpired : entry.is_expired now = true := by
      simp [CacheEntry.is_expired, hexp]
    have hsome : (dictGet st.cache key).isSome := by simp [hentry]
    simp only [TTLCache.get, hentry, hexpired, not_true_eq_false, if_neg,
      Bool.false_eq_true, if_false, TTLCache.remove_entry, hsome, if_pos]
    refine ⟨trivial, rfl, ?_⟩
    exact length_dictDel st.cache key entry hentry

/-- C1 witness: a concrete run of both halves at `K = V = Nat`. -/
theorem c1_get_after_set_and_expiry_witness :
    let st : TTLCache Nat Nat :=
      { cache := [(1, ⟨42, 0, 3⟩)], default_ttl_seconds := 3600,
        max_size := 10, access_times := [(1, 0)] }
    (((st.set 10 2 7 (some 5)).get 10 2).1 = some 7)
    ∧ (st.get 10 1).1 = none
    ∧ (st.get 10 1).2.cache.length + 1 = st.cache.length := by
  intro st
  refine ⟨(c1_get_after_set_and_expiry st 10 2 7 5).1, ?_, ?_⟩
  · exact ((c1_get_after_set_and_expiry st 10 1 0 0).2 ⟨42, 0, 3⟩ rfl
      (by decide)).1
  · exact ((c1_get_after_set_and_expiry st 10 1 0 0).2 ⟨42, 0, 3⟩ rfl
      (by decide)).2.2

/-! ## C2: LRU eviction at capacity -/

theorem argminAcc_eq_of_unique_min {K : Type} [DecidableEq K]
    (l : List (K × Nat)) (best : K × Nat) (k0 : K) (t0 : Nat)
    (hmem : (k0, t0) ∈ best :: l)
    (hmin : ∀ p ∈ best :: l, p ≠ (k0, t0) → t0 < p.2) :
    argminAcc best l = k0 := by
  induction l generalizing best with
  | nil =>
    simp only [List.mem_singleton] at hmem
    rw [argminAcc, ← hmem]
  | cons q rest ih =>
    by_cases hlt : q.2 < best.2
    · rw [argminAcc, if_pos hlt]
      refine ih q ?_ ?_
      · rcases List.mem_cons.mp hmem with hb | hq
        · by_cases hqe : q = (k0, t0)
          · exact hqe ▸ List.mem_cons_self q rest
          · have ht0 : t0 < q.2 := hmin q (by simp) hqe
            have : best.2 = t0 := by rw [← hb]
            omega
        · exact hq
      · intro p hp hpne
        exact hmin p (List.mem_cons_of_mem best hp) hpne
    · rw [argminAcc, if_neg hlt]
      refine ih best ?_ ?_
      · rcases List.mem_cons.mp hmem with hb | hq
        · exact hb ▸ List.mem_cons_self _ rest
        · rcases List.mem_cons.mp hq with hqq | hr
          · by_cases hbe : best = (k0, t0)
            · exact hbe ▸ List.mem_cons_self _ rest
            · have ht0 : t0 < best.2 := hmin best (by simp) hbe
              have : q.2 = t0 := by rw [← hqq]
              omega
          · exact List.mem_cons_of_mem best hr
      · intro p hp hpne
        rcases List.mem_cons.mp hp with hb | hr
        · exact hmin p (hb ▸ List.mem_cons_self _ _) hpne
        · exact hmin p (List.mem_cons_of_mem best (List.mem_cons_of_mem q hr)) hpne

theorem argminAcc_mem_keys {K : Type} [DecidableEq K]
    (l : List (K × Nat)) (best : K × Nat) :
    argminAcc best l ∈ (best :: l).map Prod.fst := by
  induction l generalizing best with
  | nil => simp [argminAcc]
  | cons q rest ih =>
    by_cases hlt : q.2 < best.2
    · rw [argminAcc, if_pos hlt]
      have := ih q
      simp only [List.map_cons, List.mem_cons] at this ⊢
      tauto
    · rw [argminAcc, if_neg hlt]
      have := ih best
      simp only [List.map_cons, List.mem_cons] at this ⊢
      tauto

/-- C2. With the cache at capacity (`max_size` entries, distinct keys), a
`set` with a fresh key evicts exactly the key whose last-access timestamp is
(uniquely) smallest: that key is gone, the new key is stored, every other
entry is untouched, and the size is back at `max_size`. -/
theorem c2_set_at_capacity_evicts_lru {K V : Type} [DecidableEq K]
    (st : TTLCache K V) (now : Nat) (k k0 : K) (t0 : Nat) (v : V)
    (tl : Option Nat) (e0 : CacheEntry V)
    (hfull : st.cache.length = st.max_size)
    (hmem : (k0, t0) ∈ st.access_times)
    (hmin : ∀ p ∈ st.access_times, p ≠ (k0, t0) → t0 < p.2)
    (hk0 : dictGet st.cache k0 = some e0)
    (hnodup : (st.cache.map Prod.fst).Nodup)
    (hnew : dictGet st.cache k = none) :
    dictGet (st.set now k v tl).cache k0 = none
    ∧ dictGet (st.set now k v tl).cache k
        = some ⟨v, now, tl.getD st.default_ttl_seconds⟩
    ∧ (∀ k', k' ≠ k0 → k' ≠ k →
        dictGet (st.set now k v tl).cache k' = dictGet st.cache k')
    ∧ (st.set now k v tl).cache.length = st.max_size := by
  have hkk0 : k ≠ k0 := by
    intro h
    rw [h, hk0] at hnew
    exact Option.noConfusion hnew
  obtain ⟨p, rest, hacc⟩ : ∃ p rest, st.access_times = p :: rest := by
    cases hA : st.access_times with
    | nil => rw [hA] at hmem; exact absurd hmem (List.not_mem_nil _)
    | cons p rest => exact ⟨p, rest, rfl⟩
  have hargm : argminAcc p rest = k0 := by
    refine argminAcc_eq_of_unique_min rest p k0 t0 ?_ ?_
    · rw [← hacc]; exact hmem
    · rw [← hacc]; exact hmin
  have hge : st.cache.length ≥ st.max_size := le_of_eq hfull.symm
  have hisSome : (dictGet st.cache k0).isSome := by rw [hk0]; rfl
  have hcache' : (st.set now k v tl).cache
      = dictSet (dictDel st.cache k0) k ⟨v, now, tl.getD st.default_ttl_seconds⟩ := by
    simp only [TTLCache.set, if_pos hge, TTLCache.evict_lru, hacc, hargm,
      TTLCache.remove_entry, hisSome, if_pos]
  have hdelnone : dictGet (dictDel st.cache k0) k = none := by
    rw [dictGet_dictDel_ne st.cache k0 k hkk0]; exact hnew
  refine ⟨?_, ?_, ?_, ?_⟩
  · rw [hcache', dictGet_dictSet_ne _ k k0 _ (fun h => hkk0 h.symm)]
    exact dictGet_dictDel_self st.cache k0 hnodup
  · rw [hcache']
    exact dictGet_dictSet_self _ k _
  · intro k' hk'0 hk'k
    rw [hcache', dictGet_dictSet_ne _ k k' _ hk'k]
    exact dictGet_dictDel_ne st.cache k0 k' hk'0
  · rw [hcache', length_dictSet_absent _ k _ hdelnone]
    have := length_dictDel st.cache k0 e0 hk0
    omega

/-- C2 witness: a concrete two-entry cache at capacity; key 1 (access time 5)
is least recent and is the one evicted when key 3 is inserted. -/
theorem c2_set_at_capacity_evicts_lru_witness :
    let st : TTLCache Nat Nat :=
      { cache := [(1, ⟨10, 0, 100⟩), (2, ⟨20, 0, 100⟩)],
        default_ttl_seconds := 3600, max_size := 2,
        access_times := [(1, 5), (2, 7)] }
    dictGet (st.set 9 3 30 none).cache 1 = none
    ∧ dictGet (st.set 9 3 30 none).cache 3 = some ⟨30, 9, 3600⟩
    ∧ dictGet (st.set 9 3 30 none).cache 2 = dictGet st.cache 2
    ∧ (st.set 9 3 30 none).cache.length = st.max_size := by
  intro st
  have h := c2_set_at_capacity_evicts_lru st 9 3 1 5 30 none ⟨10, 0, 100⟩
    (by decide) (by decide) (by decide) (by decide) (by decide) (by decide)
  exact ⟨h.1, h.2.1, h.2.2.1 2 (by decide) (by decide), h.2.2.2⟩

/-! ## C10: invariants over arbitrary operation sequences -/

theorem mem_keys_of_dictGet_some {K A : Type} [DecidableEq K]
    (l : List (K × A)) (k : K) (v : A) (h : dictGet l k = some v) :
    k ∈ l.map Prod.fst := by
  induction l with
  | nil => simp [dictGet] at h
  | cons p t ih =>
    obtain ⟨k0, v0⟩ := p
    by_cases h0 : k0 = k
    · simp [h0]
    · simp only [dictGet, if_neg h0] at h
      simp [ih h]

/-- One operation of the `TTLCache` public interface. -/
inductive CacheOp (K V : Type) where
  | get (now : Nat) (key : K)
  | set (now : Nat) (key : K) (value : V) (ttl : Option Nat)
  | del (key : K)
  | clr
  | sweep (now : Nat)
deriving DecidableEq

/-- Run one operation for its state effect (`sweep` is `clear_expired`,
`clr` is `clear`, `del` is `delete`). -/
def applyOp {K V : Type} [DecidableEq K] (st : TTLCache K V) :
    CacheOp K V → TTLCache K V
  | .get now key => (st.get now key).2
  | .set now key value ttl => st.set now key value ttl
  | .del key => (st.delete key).1
  | .clr => st.clear
  | .sweep now => (st.clear_expired now).1

/-- The two unstated invariants of C10 (plus the constancy of `max_size`,
which the claim presupposes): the entry count is bounded by `max_size` and
the access-time dict has exactly the keys of the entry dict. -/
def CacheInv {K V : Type} (maxs : Nat) (st : TTLCache K V) : Prop :=
  st.max_size = maxs ∧ st.cache.length ≤ maxs
  ∧ st.access_times.map Prod.fst = st.cache.map Prod.fst

theorem remove_entry_inv {K V : Type} [DecidableEq K] (maxs : Nat)
    (st : TTLCache K V) (key : K) (h : CacheInv maxs st) :
    CacheInv maxs (st.remove_entry key).1 := by
  obtain ⟨h1, h2, h3⟩ := h
  by_cases hs : (dictGet st.cache key).isSome
  · simp only [TTLCache.remove_entry, hs, if_pos]
    exact ⟨h1, le_trans (length_dictDel_le _ _) h2,
      mapfst_dictDel_congr _ _ key h3⟩
  · simp only [TTLCache.remove_entry, hs, if_neg, Bool.false_eq_true]
    exact ⟨h1, h2, h3⟩

theorem evict_lru_inv {K V : Type} [DecidableEq K] (maxs : Nat)
    (st : TTLCache K V) (h : CacheInv maxs st) :
    CacheInv maxs st.evict_lru := by
  cases hA : st.access_times with
  | nil => simpa [TTLCache.evict_lru, hA] using h
  | cons p rest =>
    simp only [TTLCache.evict_lru, hA]
    exact remove_entry_inv maxs st _ h

theorem evict_lru_shrinks {K V : Type} [DecidableEq K]
    (st : TTLCache K V)
    (hfst : st.access_times.map Prod.fst = st.cache.map Prod.fst)
    (hne : 1 ≤ st.cache.length) :
    st.evict_lru.cache.length + 1 = st.cache.length := by
  obtain ⟨p, rest, hA⟩ : ∃ p rest, st.access_times = p :: rest := by
    cases hA : st.access_times with
    | nil =>
      rw [hA] at hfst
      cases hc : st.cache with
      | nil => rw [hc] at hne; simp at hne
      | cons q u => rw [hc] at hfst; simp at hfst
    | cons p rest => exact ⟨p, rest, rfl⟩
  have hmemk : argminAcc p rest ∈ st.cache.map Prod.fst := by
    rw [← hfst, hA]
    exact argminAcc_mem_keys rest p
  have hsome := isSome_dictGet_of_mem_keys st.cache _ hmemk
  obtain ⟨e, he⟩ := Option.isSome_iff_exists.mp hsome
  simp only [TTLCache.evict_lru, hA, TTLCache.remove_entry, hsome, if_pos]
  exact length_dictDel st.cache _ e he

theorem set_inv {K V : Type} [DecidableEq K] (maxs : Nat)
    (st : TTLCache K V) (now : Nat) (key : K) (value : V) (ttl : Option Nat)
    (hmax : 1 ≤ maxs) (h : CacheInv maxs st) :
    CacheInv maxs (st.set now key value ttl) := by
  obtain ⟨h1, h2, h3⟩ := h
  by_cases hge : st.cache.length ≥ st.max_size
  · have hlen : st.cache.length = maxs := le_antisymm h2 (h1 ▸ hge)
    have hone : 1 ≤ st.cache.length := hlen ▸ hmax
    have hshrink := evict_lru_shrinks st h3 hone
    obtain ⟨e1, e2, e3⟩ := evict_lru_inv maxs st ⟨h1, h2, h3⟩
    refine ⟨?_, ?_, ?_⟩
    · simpa [TTLCache.set, if_pos hge] using e1
    · simp only [TTLCache.set, if_pos hge]
      calc (dictSet st.evict_lru.cache key ⟨value, now, ttl.getD st.default_ttl_seconds⟩).length
          ≤ st.evict_lru.cache.length + 1 := length_dictSet_le _ _ _
        _ = st.cache.length := hshrink
        _ = maxs := hlen
    · simp only [TTLCache.set, if_pos hge]
      exact mapfst_dictSet_congr _ _ key _ _ e3
  · refine ⟨?_, ?_, ?_⟩
    · simpa [TTLCache.set, if_neg hge] using h1
    · simp only [TTLCache.set, if_neg hge]
      have : st.cache.length < maxs := h1 ▸ lt_of_not_le hge
      calc (dictSet st.cache key ⟨value, now, ttl.getD st.default_ttl_seconds⟩).length
          ≤ st.cache.length + 1 := length_dictSet_le _ _ _
        _ ≤ maxs := this
    · simp only [TTLCache.set, if_neg hge]
      exact mapfst_dictSet_congr _ _ key _ _ h3

theorem get_inv {K V : Type} [DecidableEq K] (maxs : Nat)
    (st : TTLCache K V) (now : Nat) (key : K) (h : CacheInv maxs st) :
    CacheInv maxs (st.get now key).2 := by
  obtain ⟨h1, h2, h3⟩ := h
  cases hd : dictGet st.cache key with
  | none => simpa [TTLCache.get, hd] using (⟨h1, h2, h3⟩ : CacheInv maxs st)
  | some entry =>
    by_cases hexp : entry.is_expired now
    · simp only [TTLCache.get, hd, hexp, not_true_eq_false, Bool.false_eq_true,
        if_false]
      exact remove_entry_inv maxs st key ⟨h1, h2, h3⟩
    · simp only [TTLCache.get, hd, hexp, not_false_eq_true, if_pos,
        Bool.not_eq_true]
      refine ⟨h1, h2, ?_⟩
      have hkmem : key ∈ st.access_times.map Prod.fst := by
        rw [h3]
        exact mem_keys_of_dictGet_some st.cache key entry hd
      simpa [mapfst_dictSet_mem st.access_times key now hkmem] using h3

theorem foldl_remove_inv {K V : Type} [DecidableEq K] (maxs : Nat)
    (keys : List K) (st : TTLCache K V) (h : CacheInv maxs st) :
    CacheInv maxs (keys.foldl (fun s k => (s.remove_entry k).1) st) := by
  induction keys generalizing st with
  | nil => exact h
  | cons k rest ih =>
    exact ih (st.remove_entry k).1 (remove_entry_inv maxs st k h)

theorem applyOp_inv {K V : Type} [DecidableEq K] (maxs : Nat)
    (st : TTLCache K V) (op : CacheOp K V)
    (hmax : 1 ≤ maxs) (h : CacheInv maxs st) :
    CacheInv maxs (applyOp st op) := by
  obtain ⟨h1, h2, h3⟩ := h
  cases op with
  | get now key => exact get_inv maxs st now key ⟨h1, h2, h3⟩
  | set now key value ttl => exact set_inv maxs st now key value ttl hmax ⟨h1, h2, h3⟩
  | del key => exact remove_entry_inv maxs st key ⟨h1, h2, h3⟩
  | clr => exact ⟨h1, Nat.zero_le maxs, rfl⟩
  | sweep now => exact foldl_remove_inv maxs _ st ⟨h1, h2, h3⟩

/-- C10. Starting from a fresh cache with `max_size ≥ 1`, after any sequence
of `get` / `set` / `delete` / `clear` / `clear_expired` operations the entry
count never exceeds `max_size` and the key list of the access-times dict is
exactly the key list of the entry dict (no orphan timestamps, one timestamp
per entry). -/
theorem c10_invariants_hold {K V : Type} [DecidableEq K]
    (ops : List (CacheOp K V)) (dttl maxs : Nat) (hmax : 1 ≤ maxs) :
    (ops.foldl applyOp (TTLCache.init dttl maxs)).cache.length ≤ maxs
    ∧ (ops.foldl applyOp (TTLCache.init dttl maxs)).access_times.map Prod.fst
        = (ops.foldl applyOp (TTLCache.init dttl maxs)).cache.map Prod.fst := by
  have main : ∀ (l : List (CacheOp K V)) (st : TTLCache K V),
      CacheInv maxs st → CacheInv maxs (l.foldl applyOp st) := by
    intro l
    induction l with
    | nil => intro st h; exact h
    | cons op rest ih =>
      intro st h
      exact ih (applyOp st op) (applyOp_inv maxs st op hmax h)
  have h0 : CacheInv maxs (TTLCache.init dttl maxs : TTLCache K V) :=
    ⟨rfl, Nat.zero_le maxs, rfl⟩
  obtain ⟨_, hb, hc⟩ := main ops _ h0
  exact ⟨hb, hc⟩

/-- C10 witness: a concrete operation sequence on a capacity-2 cache,
exercising insertion, eviction, refresh, deletion and expiry sweep. -/
theorem c10_invariants_hold_witness :
    let ops : List (CacheOp Nat Nat) :=
      [.set 0 1 10 none, .set 1 2 20 (some 4), .get 2 1,
       .set 3 3 30 none, .del 3, .sweep 50, .set 51 4 40 none]
    (ops.foldl applyOp (TTLCache.init 5 2)).cache.length ≤ 2
    ∧ (ops.foldl applyOp (TTLCache.init 5 2)).access_times.map Prod.fst
        = (ops.foldl applyOp (TTLCache.init 5 2)).cache.map Prod.fst := by
  intro ops
  exact c10_invariants_hold ops 5 2 (by decide)

/-! ## C9: cache-fronted fetch (get_cached_data, src/utils.py) -/

/-- Python `CACHE_TTL_CONFIG`. -/
def CACHE_TTL_CONFIG : List (String × Nat) :=
  [("metadata", 3600), ("resources", 1800), ("resource_details", 900),
   ("lookup_fields", 7200), ("lookup_values", 3600), ("query_results", 300)]

/-- Python `get_cached_data`: look the `"type:key"` entry up in the TTL cache
(this lookup itself can mutate the cache: a hit refreshes the access time, an
expired entry is removed); on a miss run the fetch function; store a non-null
result; a raised exception is caught, reported via `st.error` (the `Bool` in
the result records that) and turned into `None`.  The fetch function is
modelled as an `Except`: `Except.error` is a raised exception. -/
def get_cached_data {V E : Type} (st : TTLCache String V) (now : Nat)
    (cache_type key : String) (fetch_func : Except E (Option V))
    (ttl_seconds : Option Nat) : Option V × TTLCache String V × Bool :=
  let cache_key := cache_type ++ ":" ++ key
  let g := st.get now cache_key
  match g.1 with
  | some cached_data => (some cached_data, g.2, false)
  | none =>
    match fetch_func with
    | .error _ => (none, g.2, true)
    | .ok none => (none, g.2, false)
    | .ok (some fresh_data) =>
      let t := ttl_seconds.getD ((dictGet CACHE_TTL_CONFIG cache_type).getD 3600)
      (some fresh_data, g.2.set now cache_key fresh_data (some t), false)

theorem get_absent {K V : Type} [DecidableEq K]
    (st : TTLCache K V) (now : Nat) (key : K)
    (h : dictGet st.cache key = none) : (st.get now key).1 = none := by
  simp [TTLCache.get, h]

theorem get_miss_no_entry {K V : Type} [DecidableEq K]
    (st : TTLCache K V) (now : Nat) (key : K)
    (hnodup : (st.cache.map Prod.fst).Nodup)
    (hmiss : (st.get now key).1 = none) :
    dictGet (st.get now key).2.cache key = none := by
  cases hd : dictGet st.cache key with
  | none => simp [TTLCache.get, hd]
  | some entry =>
    by_cases hexp : entry.is_expired now
    · have hs : (dictGet st.cache key).isSome := by rw [hd]; rfl
      simp only [TTLCache.get, hd, hexp, not_true_eq_false, Bool.false_eq_true,
        if_false, TTLCache.remove_entry, hs, if_pos]
      exact dictGet_dictDel_self st.cache key hnodup
    · simp [TTLCache.get, hd, hexp] at hmiss

/-- C9 counterexample to the claim as stated: the claim says a miss followed
by a raising fetch leaves the cache state unchanged, but when the miss is due
to an expired entry, the lookup removes that entry, so the state differs. -/
theorem c9_fetch_failure_state_changed :
    let st : TTLCache String Nat :=
      { cache := [("metadata:k", ⟨0, 0, 1⟩)], default_ttl_seconds := 3600,
        max_size := 10, access_times := [("metadata:k", 0)] }
    (get_cached_data st 5 "metadata" "k" (Except.error (0 : Nat)) none).1 = none
    ∧ (get_cached_data st 5 "metadata" "k" (Except.error (0 : Nat)) none).2.1 ≠ st := by
  exact ⟨by decide, by decide⟩

/-- C9 (amended). On a cache miss with a raising fetch function:
nothing is stored under the requested key (a subsequent `get` of that key
still misses at any time), `none` is returned, and the error is surfaced;
moreover when the miss is a clean miss (key absent rather than expired) the
cache state is completely unchanged. -/
theorem c9_fetch_failure_amended {V E : Type} (st : TTLCache String V)
    (now : Nat) (cache_type key : String) (e : E) (ttl_seconds : Option Nat)
    (hnodup : (st.cache.map Prod.fst).Nodup)
    (hmiss : (st.get now (cache_type ++ ":" ++ key)).1 = none) :
    (get_cached_data st now cache_type key (Except.error e) ttl_seconds).1 = none
    ∧ (get_cached_data st now cache_type key (Except.error e) ttl_seconds).2.2 = true
    ∧ dictGet (get_cached_data st now cache_type key (Except.error e) ttl_seconds).2.1.cache
        (cache_type ++ ":" ++ key) = none
    ∧ (∀ now2 : Nat,
        ((get_cached_data st now cache_type key (Except.error e) ttl_seconds).2.1.get
          now2 (cache_type ++ ":" ++ key)).1 = none)
    ∧ (dictGet st.cache (cache_type ++ ":" ++ key) = none →
        (get_cached_data st now cache_type key (Except.error e) ttl_seconds).2.1 = st) := by
  have hres : get_cached_data st now cache_type key (Except.error e) ttl_seconds
      = (none, (st.get now (cache_type ++ ":" ++ key)).2, true) := by
    simp only [get_cached_data, hmiss]
  have hnone := get_miss_no_entry st now (cache_type ++ ":" ++ key) hnodup hmiss
  refine ⟨by rw [hres], by rw [hres], by rw [hres]; exact hnone, ?_, ?_⟩
  · intro now2
    rw [hres]
    exact get_absent _ now2 _ hnone
  · intro habs
    rw [hres]
    simp [TTLCache.get, habs]

/-- C9 witness: a concrete clean miss with a raising fetch on an empty cache. -/
theorem c9_fetch_failure_amended_witness :
    let st : TTLCache String Nat := TTLCache.init 3600 10
    (get_cached_data st 0 "metadata" "k" (Except.error (7 : Nat)) none).1 = none
    ∧ (get_cached_data st 0 "metadata" "k" (Except.error (7 : Nat)) none).2.2 = true
    ∧ (get_cached_data st 0 "metadata" "k" (Except.error (7 : Nat)) none).2.1 = st := by
  intro st
  have h := c9_fetch_failure_amended st 0 "metadata" "k" (7 : Nat) none
    (by decide) (by decide)
  exact ⟨h.1, h.2.1, h.2.2.2.2 (by decide)⟩

/-! ## The RETS operator repair pass (_fix_rets_operators, src/smart_suggestions.py)

Each `re.sub(r'\(([^=]+)OP([^)]+)\)', repl, q)` call is embedded for its
fixed pattern: scan left to right; at a literal `(` try to match a nonempty
run of non-`=` characters (greedy, with backtracking, so the LAST feasible
position of `OP` wins), then the operator text, then a nonempty run of
non-`)` characters, then `)`; on a match emit the replacement and resume
after the match, otherwise emit the character and move one position on.
The `\)\s+AND\s+\(` and `\)\s+OR\s+\(` substitutions are embedded likewise. -/

/-- Query text as a list of characters. -/
abbrev Chars := List Char

/-- Whether `pat` is a prefix of `s`. -/
def leadsWith : Chars → Chars → Bool
  | [], _ => true
  | _ :: _, [] => false
  | p :: ps, c :: cs => if p = c then leadsWith ps cs else false

/-- A match of `([^)]+)\)`: a nonempty run of non-`)` characters followed by
`)`; returns the run and what follows the `)`. -/
def g2Match : Chars → Option (Chars × Chars)
  | [] => none
  | c :: cs =>
    if c = ')' then none
    else match cs with
      | ')' :: r => some ([c], r)
      | _ =>
        match g2Match cs with
        | some (run, r) => some (c :: run, r)
        | none => none

/-- Try the operator text then `([^)]+)\)` at the current position. -/
def tryOp (op t : Chars) : Option (Chars × Chars) :=
  if leadsWith op t then g2Match (t.drop op.length) else none

/-- Close group 1 (it must be nonempty) and try the operator here. -/
def tryHere (op g1rev : Chars) (c : Char) (cs : Chars) :
    Option (Chars × Chars × Chars) :=
  if g1rev.isEmpty then none
  else
    match tryOp op (c :: cs) with
    | some (g2, r) => some (g1rev.reverse, g2, r)
    | none => none

/-- Greedy-with-backtracking match of `([^=]+)OP([^)]+)\)`: prefer extending
group 1 (the regex `[^=]+` is greedy), falling back to matching `OP` at the
current position, exactly as the Python regex engine backtracks. -/
def findG1 (op : Chars) (g1rev : Chars) : Chars → Option (Chars × Chars × Chars)
  | [] => none
  | c :: cs =>
    if c = '=' then tryHere op g1rev c cs
    else
      match findG1 op (c :: g1rev) cs with
      | some res => some res
      | none => tryHere op g1rev c cs

/-- One `re.sub` scan for a `\(([^=]+)OP([^)]+)\)` pattern: on a match emit
`mk group1 group2` and resume after the match.  The fuel (one unit per
consumed character) makes the recursion structural; `runPass` supplies
enough fuel for the whole scan. -/
def subPat (op : Chars) (mk : Chars → Chars → Chars) : Nat → Chars → Chars
  | _, [] => []
  | 0, s => s
  | fuel + 1, c :: cs =>
    if c = '(' then
      match findG1 op [] cs with
      | some (g1, g2, rest) => mk g1 g2 ++ subPat op mk fuel rest
      | none => c :: subPat op mk fuel cs
    else c :: subPat op mk fuel cs

def runPass (op : Chars) (mk : Chars → Chars → Chars) (s : Chars) : Chars :=
  subPat op mk s.length s

/-- Python regex `\s` on ASCII text. -/
def isPySpace (c : Char) : Bool :=
  c == ' ' || c == '\t' || c == '\n' || c == '\r' || c == '\x0b' || c == '\x0c'

/-- Match `\s+WORD\s+\(` right after a `)`; returns what follows the `(`. -/
def connMatch (word : Chars) (t : Chars) : Option Chars :=
  if (t.takeWhile isPySpace).isEmpty then none
  else
    let r1 := t.dropWhile isPySpace
    if leadsWith word r1 then
      let r2 := r1.drop word.length
      if (r2.takeWhile isPySpace).isEmpty then none
      else
        match r2.dropWhile isPySpace with
        | '(' :: r => some r
        | _ => none
    else none

/-- One `re.sub` scan for `\)\s+WORD\s+\(`, replaced by `)REP(`. -/
def subConn (word : Chars) (rep : Char) : Nat → Chars → Chars
  | _, [] => []
  | 0, s => s
  | fuel + 1, c :: cs =>
    if c = ')' then
      match connMatch word cs with
      | some rest => ')' :: rep :: '(' :: subConn word rep fuel rest
      | none => c :: subConn word rep fuel cs
    else c :: subConn word rep fuel cs

def runConn (word : Chars) (rep : Char) (s : Chars) : Chars :=
  subConn word rep s.length s

/-- Replacement `(\1=\2+)` used by the `>` and `>=` substitutions. -/
def mkGtRepl (g1 g2 : Chars) : Chars := '(' :: (g1 ++ '=' :: (g2 ++ ['+', ')']))

/-- Replacement `(\1=-\2)` used by the `<` and `<=` substitutions. -/
def mkLtRepl (g1 g2 : Chars) : Chars := '(' :: (g1 ++ '=' :: '-' :: (g2 ++ [')']))

/-- Replacement `(\1!\2)` used by the `!=` substitution. -/
def mkNeRepl (g1 g2 : Chars) : Chars := '(' :: (g1 ++ '!' :: (g2 ++ [')']))

/-- Python `_fix_rets_operators`: the seven `re.sub` passes in source order
(`>` before `>=`, `<` before `<=`, then `!=`, then the AND / OR joins). -/
def fixRetsOperators (s : Chars) : Chars :=
  let q1 := runPass ['>'] mkGtRepl s
  let q2 := runPass ['>', '='] mkGtRepl q1
  let q3 := runPass ['<'] mkLtRepl q2
  let q4 := runPass ['<', '='] mkLtRepl q3
  let q5 := runPass ['!', '='] mkNeRepl q4
  let q6 := runConn ['A', 'N', 'D'] ',' q5
  runConn ['O', 'R'] '|' q6

def fixRetsOperatorsStr (s : String) : String :=
  String.mk (fixRetsOperators s.data)


/-! ## C5 and C6: behaviour of the repair pass -/

/-- Whether `pat` occurs as a contiguous substring of `s`. -/
def containsSeq (pat : Chars) : Chars → Bool
  | [] => pat.isEmpty
  | c :: cs => leadsWith pat (c :: cs) || containsSeq pat cs

theorem containsSeq_of_leads (pat t : Chars) (h : leadsWith pat t = true) :
    containsSeq pat t = true := by
  cases t with
  | nil =>
    cases pat with
    | nil => rfl
    | cons p ps => simp [leadsWith] at h
  | cons c cs => simp [containsSeq, h]

theorem containsSeq_cons_of (pat : Chars) (c : Char) (cs : Chars)
    (h : containsSeq pat cs = true) : containsSeq pat (c :: cs) = true := by
  simp [containsSeq, h]

theorem containsSeq_dropWhile (pat : Chars) (p : Char → Bool) (t : Chars)
    (h : containsSeq pat (t.dropWhile p) = true) : containsSeq pat t = true := by
  induction t with
  | nil => simpa using h
  | cons c cs ih =>
    cases hp : p c with
    | true =>
      rw [List.dropWhile_cons, hp] at h
      exact containsSeq_cons_of pat c cs (ih (by simpa using h))
    | false =>
      rw [List.dropWhile_cons, hp] at h
      simpa using h

theorem tryHere_some_leads (op g1rev : Chars) (c : Char) (cs : Chars)
    (r : Chars × Chars × Chars) (h : tryHere op g1rev c cs = some r) :
    leadsWith op (c :: cs) = true := by
  by_cases he : g1rev.isEmpty
  · rw [tryHere, if_pos he] at h
    exact Option.noConfusion h
  · rw [tryHere, if_neg he] at h
    cases hl : leadsWith op (c :: cs) with
    | true => rfl
    | false =>
      rw [tryOp, hl] at h
      simp at h

theorem findG1_some_contains (op : Chars) (t : Chars) :
    ∀ (acc : Chars) (r : Chars × Chars × Chars),
      findG1 op acc t = some r → containsSeq op t = true := by
  induction t with
  | nil => intro acc r h; exact Option.noConfusion h
  | cons c cs ih =>
    intro acc r h
    by_cases hc : c = '='
    · rw [findG1, if_pos hc] at h
      exact containsSeq_of_leads op _ (tryHere_some_leads op acc c cs r h)
    · rw [findG1, if_neg hc] at h
      cases hrec : findG1 op (c :: acc) cs with
      | some res =>
        exact containsSeq_cons_of op c cs (ih (c :: acc) res hrec)
      | none =>
        rw [hrec] at h
        exact containsSeq_of_leads op _ (tryHere_some_leads op acc c cs r h)

theorem subPat_id (op : Chars) (mk : Chars → Chars → Chars) :
    ∀ (fuel : Nat) (s : Chars), containsSeq op s = false →
      subPat op mk fuel s = s := by
  intro fuel
  induction fuel with
  | zero => intro s h; cases s <;> rfl
  | succ n ih =>
    intro s h
    cases s with
    | nil => rfl
    | cons c cs =>
      simp only [containsSeq, Bool.or_eq_false_iff] at h
      by_cases hc : c = '('
      · rw [subPat, if_pos hc]
        cases hf : findG1 op [] cs with
        | some r =>
          have := findG1_some_contains op cs [] r hf
          rw [this] at h
          exact absurd h.2 (by simp)
        | none => rw [ih cs h.2]
      · rw [subPat, if_neg hc, ih cs h.2]

theorem connMatch_some_contains (word t : Chars) (r : Chars)
    (h : connMatch word t = some r) : containsSeq word t = true := by
  by_cases h1 : (t.takeWhile isPySpace).isEmpty
  · rw [connMatch, if_pos h1] at h
    exact Option.noConfusion h
  · cases h2 : leadsWith word (t.dropWhile isPySpace) with
    | true =>
      exact containsSeq_dropWhile word isPySpace t
        (containsSeq_of_leads word _ h2)
    | false =>
      rw [connMatch, if_neg h1] at h
      simp only [h2, Bool.false_eq_true, if_false] at h
      exact Option.noConfusion h

theorem subConn_id (word : Chars) (rep : Char) :
    ∀ (fuel : Nat) (s : Chars), containsSeq word s = false →
      subConn word rep fuel s = s := by
  intro fuel
  induction fuel with
  | zero => intro s h; cases s <;> rfl
  | succ n ih =>
    intro s h
    cases s with
    | nil => rfl
    | cons c cs =>
      simp only [containsSeq, Bool.or_eq_false_iff] at h
      by_cases hc : c = ')'
      · rw [subConn, if_pos hc]
        cases hf : connMatch word cs with
        | some r =>
          have := connMatch_some_contains word cs r hf
          rw [this] at h
          exact absurd h.2 (by simp)
        | none => rw [ih cs h.2]
      · rw [subConn, if_neg hc, ih cs h.2]

theorem containsSeq_head (x : Char) (xs s : Chars)
    (h : containsSeq (x :: xs) s = true) : containsSeq [x] s = true := by
  induction s with
  | nil => simp [containsSeq] at h
  | cons c cs ih =>
    simp only [containsSeq, Bool.or_eq_true] at h ⊢
    rcases h with h | h
    · left
      by_cases hx : x = c
      · simp [leadsWith, hx]
      · rw [leadsWith, if_neg hx] at h
        exact Bool.noConfusion h
    · right
      exact ih h

theorem containsSeq_ext_false (x : Char) (xs s : Chars)
    (h : containsSeq [x] s = false) : containsSeq (x :: xs) s = false := by
  cases hc : containsSeq (x :: xs) s with
  | false => rfl
  | true =>
    have := containsSeq_head x xs s hc
    rw [h] at this
    exact Bool.noConfusion this

/-- C5. Evaluation of `_fix_rets_operators` on one predicate per operator: the
`>`, `!=`, AND and OR rewrites match the documented mapping, but because the
`>` pass runs before the `>=` pass (and `<` before `<=`), `(Price>=100000)`
is rewritten to `(Price==100000+)` instead of the documented `(Price=100000+)`,
and `(Price<=100000)` to `(Price=-=100000)` instead of `(Price=-100000)`. -/
theorem c5_operator_rewrite_behaviour :
    fixRetsOperatorsStr "(Price>100000)" = "(Price=100000+)"
    ∧ fixRetsOperatorsStr "(Price>=100000)" = "(Price==100000+)"
    ∧ fixRetsOperatorsStr "(Price<100000)" = "(Price=-100000)"
    ∧ fixRetsOperatorsStr "(Price<=100000)" = "(Price=-=100000)"
    ∧ fixRetsOperatorsStr "(Price!=100000)" = "(Price!100000)"
    ∧ fixRetsOperatorsStr "(A=1) AND (B=2)" = "(A=1),(B=2)"
    ∧ fixRetsOperatorsStr "(A=1) OR (B=2)" = "(A=1)|(B=2)" := by
  decide

/-- C6 counterexample: the repair pass is not idempotent on all inputs.  On
`(A>B>C)` one application yields `(A>B=C+)` (the greedy `[^=]+` group
swallows the first `>`), and a second application rewrites the surviving `>`
again, yielding `(A=B=C++)`. -/
theorem c6_repair_not_idempotent :
    fixRetsOperators (fixRetsOperators ("(A>B>C)".data))
      ≠ fixRetsOperators ("(A>B>C)".data) := by
  decide

/-- C6 (amended). The repair pass leaves unchanged every filter string that
contains none of the naive-operator fragments: no `>`, no `<`, no `!=`
substring, and no `AND` / `OR` word (native DMQL2 strings in particular).
Full idempotence fails (see the counterexample). -/
theorem c6_repair_noop_on_native (s : Chars)
    (h1 : containsSeq ['>'] s = false)
    (h2 : containsSeq ['<'] s = false)
    (h3 : containsSeq ['!', '='] s = false)
    (h4 : containsSeq ['A', 'N', 'D'] s = false)
    (h5 : containsSeq ['O', 'R'] s = false) :
    fixRetsOperators s = s := by
  have h1' : containsSeq ['>', '='] s = false := containsSeq_ext_false '>' ['='] s h1
  have h2' : containsSeq ['<', '='] s = false := containsSeq_ext_false '<' ['='] s h2
  have e1 : runPass ['>'] mkGtRepl s = s := subPat_id _ _ _ s h1
  have e2 : runPass ['>', '='] mkGtRepl s = s := subPat_id _ _ _ s h1'
  have e3 : runPass ['<'] mkLtRepl s = s := subPat_id _ _ _ s h2
  have e4 : runPass ['<', '='] mkLtRepl s = s := subPat_id _ _ _ s h2'
  have e5 : runPass ['!', '='] mkNeRepl s = s := subPat_id _ _ _ s h3
  have e6 : runConn ['A', 'N', 'D'] ',' s = s := subConn_id _ _ _ s h4
  have e7 : runConn ['O', 'R'] '|' s = s := subConn_id _ _ _ s h5
  show runConn ['O', 'R'] '|' (runConn ['A', 'N', 'D'] ','
    (runPass ['!', '='] mkNeRepl (runPass ['<', '='] mkLtRepl
      (runPass ['<'] mkLtRepl (runPass ['>', '='] mkGtRepl
        (runPass ['>'] mkGtRepl s)))))) = s
  rw [e1, e2, e3, e4, e5, e6, e7]

/-- C6 witness: a concrete native DMQL2 filter is left unchanged. -/
theorem c6_repair_noop_on_native_witness :
    fixRetsOperators ("(Status=Active),(ListPrice=100000+)".data)
      = "(Status=Active),(ListPrice=100000+)".data :=
  c6_repair_noop_on_native _ (by decide) (by decide) (by decide) (by decide)
    (by decide)

/-! ## C7: Matrix-format search-response row parsing
(RETSClient._parse_search_response, src/clients/rets_client.py) -/

/-- Python `str.strip()` on ASCII text. -/
def pyStripChars (l : Chars) : Chars :=
  ((l.dropWhile isPySpace).reverse.dropWhile isPySpace).reverse

/-- Python `str.strip()` lifted to `String`. -/
def pyStrip (s : String) : String :=
  String.mk (pyStripChars s.data)

/-- Python `s.split(d)` for a one-character separator `d`: splits on every
occurrence, keeping empty fields (so `"\tb".split("\t")` is `["", "b"]`). -/
def splitChars (delim : Char) : Chars → List Chars
  | [] => [[]]
  | c :: cs =>
    let rest := splitChars delim cs
    if c = delim then [] :: rest
    else
      match rest with
      | r :: rs => (c :: r) :: rs
      | [] => [[c]]

/-- String-valued wrapper of `splitChars`. -/
def pySplit (s : String) (delim : Char) : List String :=
  (splitChars delim s.data).map String.mk

/-- Decode the `DELIMITER` element's `value` attribute: `"09"` is tab,
`"2C"` is comma, anything else goes through `chr(int(value))` (`none` when
`int` would raise, which the surrounding `except` turns into no results). -/
def delimFromValue (dv : String) : Option Char :=
  if dv = "09" then some '\t'
  else if dv = "2C" then some ','
  else (dv.toNat?).map Char.ofNat

/-- The per-column assignment loop: `values[j].strip() if values[j] else ""`,
stored as `None` when that is empty, and `None` for headers beyond the
value list. -/
def rowAssign : List String → List String → List (String × Option String)
  | [], _ => []
  | h :: hs, [] => (h, none) :: rowAssign hs []
  | h :: hs, v :: vs =>
    let value := if v = "" then "" else pyStrip v
    (h, if value = "" then none else some value) :: rowAssign hs vs

/-- Parse one `DATA` row: split on the delimiter; when there are more values
than headers, first drop a leading empty value, then truncate any remaining
extras; then assign values to headers. -/
def parseDataRow (headers : List String) (delim : Char) (dataText : String) :
    List (String × Option String) :=
  let values := pySplit dataText delim
  let aligned :=
    if values.length > headers.length then
      let v1 :=
        match values with
        | v :: rest => if v = "" ∨ pyStrip v = "" then rest else values
        | [] => values
      if v1.length > headers.length then v1.take headers.length else v1
    else values
  rowAssign headers aligned

/-- The Matrix-format branch of `_parse_search_response`: headers come from
the stripped `COLUMNS` text split on the decoded delimiter; each `DATA`
element with non-empty text becomes one record. -/
def parseMatrixRows (columnsText : String) (delimValue : Option String)
    (dataTexts : List String) : Option (List (List (String × Option String))) :=
  match (match delimValue with
         | none => some '\t'
         | some dv => delimFromValue dv) with
  | none => none
  | some delim =>
    let headers := pySplit (pyStrip columnsText) delim
    some ((dataTexts.filter (fun t => t ≠ "")).map (parseDataRow headers delim))

/-- C7. With `COLUMNS` text `"A\tB\tC"`, `DELIMITER value="09"` and a `DATA`
row `"\tv1\tv2\tv3"` (one leading empty field), the parser drops the leading
empty field and returns the record `{A: v1, B: v2, C: v3}`. -/
theorem c7_matrix_row_realignment :
    parseMatrixRows "A\tB\tC" (some "09") ["\tv1\tv2\tv3"]
      = some [[("A", some "v1"), ("B", some "v2"), ("C", some "v3")]] := by
  decide

/-! ## C8: default DMQL2 query (RETSClient.execute_query) -/

/-- The search parameters that `execute_query` sends: the `Query` value is
`query.strip() if query and query.strip() else '(ListingId=*)'`; a `Select`
parameter is appended only when `select` is non-empty. -/
def execute_query_params (resource class_name query : String) (limit : Nat)
    (select : String) : List (String × String) :=
  let base :=
    [("SearchType", resource), ("Class", class_name),
     ("Query", if query ≠ "" ∧ pyStrip query ≠ "" then pyStrip query
               else "(ListingId=*)"),
     ("QueryType", "DMQL2"), ("Count", "1"), ("Format", "COMPACT-DECODED"),
     ("Limit", toString limit)]
  if select ≠ "" then base ++ [("Select", select)] else base

/-- Python `execute_query` returns `None` without searching when the client
is not connected; otherwise it issues the search with the built parameters. -/
def execute_query_request (connected : Bool) (resource class_name query : String)
    (limit : Nat) (select : String) : Option (List (String × String)) :=
  if connected then
    some (execute_query_params resource class_name query limit select)
  else none

theorem execute_query_params_query (resource class_name query : String)
    (limit : Nat) (select : String) :
    dictGet (execute_query_params resource class_name query limit select) "Query"
      = some (if query ≠ "" ∧ pyStrip query ≠ "" then pyStrip query
              else "(ListingId=*)") := by
  by_cases hs : select ≠ ""
  · simp only [execute_query_params, if_pos hs, List.cons_append]
    rw [dictGet, if_neg (by decide), dictGet, if_neg (by decide), dictGet,
      if_pos rfl]
  · simp only [execute_query_params, if_neg hs]
    rw [dictGet, if_neg (by decide), dictGet, if_neg (by decide), dictGet,
      if_pos rfl]

/-- C8. A connected `execute_query` sends `(ListingId=*)` as the `Query`
parameter whenever the caller's query is empty or whitespace-only, and sends
the stripped caller query unchanged otherwise. -/
theorem c8_default_query (resource class_name query : String) (limit : Nat)
    (select : String) :
    (pyStrip query = "" →
      (execute_query_request true resource class_name query limit select).map
        (fun ps => dictGet ps "Query") = some (some "(ListingId=*)"))
    ∧ (pyStrip query ≠ "" →
      (execute_query_request true resource class_name query limit select).map
        (fun ps => dictGet ps "Query") = some (some (pyStrip query))) := by
  have hreq : execute_query_request true resource class_name query limit select
      = some (execute_query_params resource class_name query limit select) := rfl
  constructor
  · intro h
    have hcond : ¬(query ≠ "" ∧ pyStrip query ≠ "") := fun hc => hc.2 h
    rw [hreq]
    show some (dictGet (execute_query_params resource class_name query limit
      select) "Query") = some (some "(ListingId=*)")
    rw [execute_query_params_query, if_neg hcond]
  · intro h
    have hqne : query ≠ "" := by
      intro he
      rw [he] at h
      exact h rfl
    rw [hreq]
    show some (dictGet (execute_query_params resource class_name query limit
      select) "Query") = some (some (pyStrip query))
    rw [execute_query_params_query, if_pos ⟨hqne, h⟩]

/-- C8 witness: a whitespace-only query gets the default, a real query is
sent stripped. -/
theorem c8_default_query_witness :
    (execute_query_request true "Property" "RES" "  " 100 "").map
      (fun ps => dictGet ps "Query") = some (some "(ListingId=*)")
    ∧ (execute_query_request true "Property" "RES" " (Price=0+) " 100 "X").map
      (fun ps => dictGet ps "Query") = some (some "(Price=0+)") := by
  refine ⟨(c8_default_query "Property" "RES" "  " 100 "").1 (by decide), ?_⟩
  have h := (c8_default_query "Property" "RES" " (Price=0+) " 100 "X").2
    (by decide)
  rw [h]
  decide

/-! ## C3: connect() on expected authentication failure
(RETSClient.connect, RESOWebAPIClient.connect, src/clients/rets_client.py)

The HTTP layer is an oracle from (auth method, URL) to an outcome: either a
response status code or a raised requests exception.  Both `connect` bodies
are wrapped in `try/except Exception: return False`, and inside the RETS
endpoint loop a `requests.exceptions.RequestException` just advances to the
next endpoint — so every exception path is embedded as a caught path yielding
`false`; the functions below are total and `Bool`-valued, which is exactly
the "never raises" behaviour of the source. -/

/-- Outcome of one `session.get`: an HTTP status, or a raised request
exception. -/
inductive HttpOutcome where
  | status (code : Nat)
  | raise
deriving DecidableEq

/-- The candidate login endpoints tried by `RETSClient.connect`. -/
def loginEndpoints : List String :=
  ["/login", "/Login", "/RETS/Login", "/rets/login", "/Login.ashx", "/login.ashx"]

/-- The endpoint loop of `RETSClient.connect` for one auth method on a
non-`.ashx` URL: a 200 means success; a 401, any other status, or a request
exception all move on to the next endpoint. -/
def tryEndpointList (oracle : Nat → String → HttpOutcome) (auth : Nat)
    (url : String) : List String → Bool
  | [] => false
  | e :: rest =>
    if oracle auth (url ++ e) = .status 200 then true
    else tryEndpointList oracle auth url rest

/-- One auth method's attempt in `RETSClient.connect`: Matrix URLs first try
the base URL; `.ashx` URLs try only the base URL (the other endpoints are
skipped by `break`); otherwise the six login endpoints are tried in order. -/
def retsConnectAuth (oracle : Nat → String → HttpOutcome) (auth : Nat)
    (url : String) : Bool :=
  let matrixHit :=
    if containsSeq "matrix".data (url.toLower).data then
      oracle auth url = .status 200
    else false
  if matrixHit then true
  else if url.endsWith ".ashx" then oracle auth url = .status 200
  else tryEndpointList oracle auth url loginEndpoints

/-- Python `RETSClient.connect`: Basic auth (index 0) then Digest auth
(index 1); `true` as soon as some login URL answers 200, else `false`. -/
def retsConnect (oracle : Nat → String → HttpOutcome) (url : String) : Bool :=
  retsConnectAuth oracle 0 url || retsConnectAuth oracle 1 url

/-- Outcome of one `RESOWebAPIClient._make_api_request` call: a 200 answer
with a JSON body, a 200 answer with another content type, a non-200 status,
or a raised request exception. -/
inductive ApiOutcome (D : Type) where
  | ok200json (body : D)
  | ok200text (text : String)
  | status (code : Nat)
  | raise
deriving DecidableEq

/-- Result of `_make_api_request`: the parsed JSON, or the raw text wrapped
as `{'content': text}`. -/
inductive ApiResult (D : Type) where
  | json (body : D)
  | content (text : String)
deriving DecidableEq

/-- Python `RESOWebAPIClient._make_api_request`: `None` without a token;
200 answers produce data; 401 / 403 / 404 / other statuses and raised
request exceptions all produce `None`. -/
def makeApiRequest {D : Type} (access_token : String) (outcome : ApiOutcome D) :
    Option (ApiResult D) :=
  if access_token = "" then none
  else
    match outcome with
    | .ok200json body => some (.json body)
    | .ok200text text => some (.content text)
    | .status _ => none
    | .raise => none

/-- Python `RESOWebAPIClient.connect`: with a direct access token the token
is tested by one API call (`connected` iff it yields data); otherwise the
OAuth2 password grant runs — missing `token_url`/`client_id`, a non-200
token response, a token response without an `access_token` field, and raised
exceptions all yield `false`. -/
def resoConnect {D : Type} (access_token token_url client_id : String)
    (testOutcome : ApiOutcome D) (tokenResp : HttpOutcome)
    (tokenHasToken : Bool) : Bool :=
  if access_token ≠ "" then (makeApiRequest access_token testOutcome).isSome
  else
    if token_url = "" ∨ client_id = "" then false
    else
      match tokenResp with
      | .status code => if code = 200 then tokenHasToken else false
      | .raise => false

theorem tryEndpointList_no200 (oracle : Nat → String → HttpOutcome)
    (auth : Nat) (url : String) (es : List String)
    (h : ∀ a u, oracle a u ≠ .status 200) :
    tryEndpointList oracle auth url es = false := by
  induction es with
  | nil => rfl
  | cons e rest ih =>
    rw [tryEndpointList, if_neg (h auth (url ++ e)), ih]

/-- C3. Expected authentication failures make both clients' `connect` return
`false` instead of raising: (a) if no RETS login request ever answers 200
(bad credentials, exhausted endpoints/schemes, raised request exceptions),
`RETSClient.connect` is `false`; (b) a RESO direct-token client whose token
test comes back 401 (expired token) gets `false` from `connect`; (c) a RESO
OAuth2 client whose token request is denied gets `false` from `connect`.
All three functions are total (`Bool`-valued): every exception path of the
source is a caught path. -/
theorem c3_connect_auth_failure_returns_false {D : Type}
    (oracle : Nat → String → HttpOutcome) (url : String)
    (token token_url client_id : String) (code : Nat) (hasTok : Bool)
    (h200 : ∀ a u, oracle a u ≠ .status 200)
    (htok : token ≠ "") (hcode : code ≠ 200) :
    retsConnect oracle url = false
    ∧ resoConnect token token_url client_id (ApiOutcome.status 401 : ApiOutcome D)
        (HttpOutcome.status 200) true = false
    ∧ resoConnect "" token_url client_id (ApiOutcome.raise : ApiOutcome D)
        (HttpOutcome.status code) hasTok = false := by
  refine ⟨?_, ?_, ?_⟩
  · have hauth : ∀ a, retsConnectAuth oracle a url = false := by
      intro a
      rw [retsConnectAuth]
      have hm : (if containsSeq  "matrix".data (url.toLower).data then
          oracle a url = HttpOutcome.status 200 else False) = False := by
        by_cases hc : containsSeq "matrix".data (url.toLower).data
        · simp [hc, h200 a url]
        · simp [hc]
      by_cases hc : containsSeq "matrix".data (url.toLower).data
      · simp only [hc, if_pos, decide_eq_true_eq]
        rw [if_neg (h200 a url)]
        by_cases hx : url.endsWith ".ashx"
        · simp [hx, h200 a url]
        · simp [hx, tryEndpointList_no200 oracle a url loginEndpoints h200]
      · simp only [hc, Bool.false_eq_true, if_false]
        by_cases hx : url.endsWith ".ashx"
        · simp [hx, h200 a url]
        · simp [hx, tryEndpointList_no200 oracle a url loginEndpoints h200]
    rw [retsConnect, hauth 0, hauth 1, Bool.or_self]
  · rw [resoConnect, if_pos htok]
    simp [makeApiRequest, htok]
  · rw [resoConnect]
    simp [hcode]

/-- C3 witness: a concrete all-401 oracle against an `.ashx` RETS URL, an
expired direct token, and a denied password grant. -/
theorem c3_connect_auth_failure_returns_false_witness :
    retsConnect (fun _ _ => HttpOutcome.status 401) "http://mls.example.com/login.ashx" = false
    ∧ resoConnect "expiredtoken" "" "" (ApiOutcome.status 401 : ApiOutcome Nat)
        (HttpOutcome.status 200) true = false
    ∧ resoConnect "" "http://t" "cid" (ApiOutcome.raise : ApiOutcome Nat)
        (HttpOutcome.status 401) true = false := by
  exact c3_connect_auth_failure_returns_false
    (fun _ _ => HttpOutcome.status 401) "http://mls.example.com/login.ashx"
    "expiredtoken" "" "" 401 true
    (fun a u h => absurd (HttpOutcome.status.inj h) (by omega))
    (by decide) (by decide)

/-! ## C4: the 4-level metadata cascade (RETSClient.get_metadata)

`_parse_metadata_response` never raises: an XML parse failure is caught
inside it and produces a placeholder dict (`{'system': {'raw_response': …},
'resources': [], 'classes': [], 'fields': []}`).  So the oracle below returns
already-parsed metadata (a parse failure is an ordinary 200 outcome with a
placeholder body), while `raise` stands for a `session.get` timeout or other
request exception — which in the source propagates to the single outer
`except Exception` of `get_metadata` and turns the WHOLE call into `None`. -/

/-- The dict produced by `_parse_metadata_response`. -/
structure ParsedMetadata where
  system : List (String × String)
  resources : List (List (String × String))
  classes : List (List (String × String))
  fields : List (List (String × String))
deriving DecidableEq

/-- Outcome of one metadata `session.get`: a status with the parsed body, or
a raised request exception. -/
inductive MetaOutcome where
  | resp (status : Nat) (meta : ParsedMetadata)
  | raise
deriving DecidableEq

/-- Per-class inner loop: request `METADATA-TABLE` with ID
`resource:class` for every class whose `ClassName` is non-empty; a 200 adds
a `TABLE_<resource>_<class>` entry, a non-200 is skipped, an exception
aborts the whole call. -/
def tableLoop (oracle : String → String → MetaOutcome) (rname : String) :
    List (List (String × String)) → Except Unit (List (String × ParsedMetadata))
  | [] => .ok []
  | c :: rest =>
    let cname := (dictGet c "ClassName").getD ""
    if cname = "" then tableLoop oracle rname rest
    else
      match oracle "METADATA-TABLE" (rname ++ ":" ++ cname) with
      | .raise => .error ()
      | .resp s m =>
        if s = 200 then
          match tableLoop oracle rname rest with
          | .error e => .error e
          | .ok l => .ok (("TABLE_" ++ rname ++ "_" ++ cname, m) :: l)
        else tableLoop oracle rname rest

/-- Per-resource loop: request `METADATA-CLASS` for every resource whose
`ResourceID` is non-empty; a 200 adds a `CLASS_<resource>` entry and descends
into the table loop, a non-200 is skipped, an exception aborts the call. -/
def classLoop (oracle : String → String → MetaOutcome) :
    List (List (String × String)) → Except Unit (List (String × ParsedMetadata))
  | [] => .ok []
  | r :: rest =>
    let rname := (dictGet r "ResourceID").getD ""
    if rname = "" then classLoop oracle rest
    else
      match oracle "METADATA-CLASS" rname with
      | .raise => .error ()
      | .resp s m =>
        if s = 200 then
          match tableLoop oracle rname m.classes with
          | .error e => .error e
          | .ok tabs =>
            match classLoop oracle rest with
            | .error e => .error e
            | .ok l => .ok (("CLASS_" ++ rname, m) :: (tabs ++ l))
        else classLoop oracle rest

/-- Python `RETSClient.get_metadata`: `None` when not connected; request
`METADATA-SYSTEM` (`ID=*`) — a non-200 yields `None`; then
`METADATA-RESOURCE` (`ID=0`) — a non-200 stops the cascade but the
accumulated dict is returned; then the class/table loops; any raised request
exception anywhere returns `None` via the outer `except`. -/
def get_metadata (connected : Bool)
    (oracle : String → String → MetaOutcome) :
    Option (List (String × ParsedMetadata)) :=
  if connected then
    match oracle "METADATA-SYSTEM" "*" with
    | .raise => none
    | .resp s sysM =>
      if s = 200 then
        match oracle "METADATA-RESOURCE" "0" with
        | .raise => none
        | .resp s2 resM =>
          if s2 = 200 then
            match classLoop oracle resM.resources with
            | .error _ => none
            | .ok l => some (("SYSTEM", sysM) :: ("RESOURCE", resM) :: l)
          else some [("SYSTEM", sysM)]
      else none
  else none

/-- The C4 counterexample oracle: `METADATA-SYSTEM` succeeds, the
`METADATA-RESOURCE` request times out (raises). -/
def c4TimeoutOracle : String → String → MetaOutcome :=
  fun t _ =>
    if t = "METADATA-SYSTEM" then .resp 200 ⟨[], [], [], []⟩ else .raise

/-- C4 counterexample to the claim as stated: a timeout at the RESOURCE
level does NOT leave the successfully retrieved SYSTEM metadata in the
result — the outer `except` returns `None` and the partial accumulation is
discarded. -/
theorem c4_timeout_discards_partial_metadata :
    c4TimeoutOracle "METADATA-SYSTEM" "*" = .resp 200 ⟨[], [], [], []⟩
    ∧ get_metadata true c4TimeoutOracle = none
    ∧ (none : Option (List (String × ParsedMetadata)))
        ≠ some [("SYSTEM", ⟨[], [], [], []⟩)] := by
  refine ⟨rfl, ?_, by decide⟩
  rfl

/-- The metadata accumulated from the TABLE levels that succeed, in the
words of the amended claim: one `TABLE_<resource>_<class>` entry per class
(with non-empty `ClassName`) whose `METADATA-TABLE` request answers 200;
non-200 classes are skipped.  Stated spec-side, to be compared with the
code's `tableLoop`. -/
def specTableAcc (oracle : String → String → MetaOutcome) (rname : String) :
    List (List (String × String)) → List (String × ParsedMetadata)
  | [] => []
  | c :: rest =>
    let cname := (dictGet c "ClassName").getD ""
    if cname = "" then specTableAcc oracle rname rest
    else
      match oracle "METADATA-TABLE" (rname ++ ":" ++ cname) with
      | .raise => specTableAcc oracle rname rest
      | .resp s m =>
        if s = 200 then
          ("TABLE_" ++ rname ++ "_" ++ cname, m) :: specTableAcc oracle rname rest
        else specTableAcc oracle rname rest

/-- The metadata accumulated from the CLASS and TABLE levels that succeed:
one `CLASS_<resource>` entry per resource (with non-empty `ResourceID`)
whose `METADATA-CLASS` request answers 200, each followed by its accumulated
TABLE entries; non-200 resources are skipped.  Stated spec-side, to be
compared with the code's `classLoop`. -/
def specClassAcc (oracle : String → String → MetaOutcome) :
    List (List (String × String)) → List (String × ParsedMetadata)
  | [] => []
  | r :: rest =>
    let rname := (dictGet r "ResourceID").getD ""
    if rname = "" then specClassAcc oracle rest
    else
      match oracle "METADATA-CLASS" rname with
      | .raise => specClassAcc oracle rest
      | .resp s m =>
        if s = 200 then
          ("CLASS_" ++ rname, m)
            :: (specTableAcc oracle rname m.classes ++ specClassAcc oracle rest)
        else specClassAcc oracle rest

theorem tableLoop_eq_spec (oracle : String → String → MetaOutcome)
    (rname : String) (cls : List (List (String × String)))
    (h : ∀ id, oracle "METADATA-TABLE" id ≠ .raise) :
    tableLoop oracle rname cls = .ok (specTableAcc oracle rname cls) := by
  induction cls with
  | nil => rfl
  | cons c rest ih =>
    by_cases hc : (dictGet c "ClassName").getD "" = ""
    · simp only [tableLoop, specTableAcc, hc, if_pos]
      exact ih
    · cases ho : oracle "METADATA-TABLE" (rname ++ ":" ++ (dictGet c "ClassName").getD "") with
      | raise => exact absurd ho (h _)
      | resp s m =>
        by_cases hs : s = 200
        · subst hs
          simp only [tableLoop, specTableAcc, hc, Bool.false_eq_true, if_false,
            ho, if_pos rfl, ih]
          simp
        · simp only [tableLoop, specTableAcc, hc, Bool.false_eq_true, if_false,
            ho, if_neg hs]
          exact ih

theorem classLoop_eq_spec (oracle : String → String → MetaOutcome)
    (rs : List (List (String × String)))
    (hcl : ∀ id, oracle "METADATA-CLASS" id ≠ .raise)
    (htb : ∀ id, oracle "METADATA-TABLE" id ≠ .raise) :
    classLoop oracle rs = .ok (specClassAcc oracle rs) := by
  induction rs with
  | nil => rfl
  | cons r rest ih =>
    by_cases hr : (dictGet r "ResourceID").getD "" = ""
    · simp only [classLoop, specClassAcc, hr, if_pos]
      exact ih
    · cases ho : oracle "METADATA-CLASS" ((dictGet r "ResourceID").getD "") with
      | raise => exact absurd ho (hcl _)
      | resp s m =>
        by_cases hs : s = 200
        · subst hs
          have htab := tableLoop_eq_spec oracle ((dictGet r "ResourceID").getD "")
            m.classes htb
          simp only [classLoop, specClassAcc, hr, Bool.false_eq_true, if_false,
            ho, if_pos rfl, htab, ih]
          simp
        · simp only [classLoop, specClassAcc, hr, Bool.false_eq_true, if_false,
            ho, if_neg hs]
          exact ih

/-- C4 (amended).  Partial failure below the SYSTEM level by non-200 status
still returns the metadata accumulated from the levels that succeeded (a
parse failure likewise does not abort, since it is handled inside
`_parse_metadata_response`): a non-200 at the RESOURCE level returns
`{SYSTEM: …}`, and — whenever no request raises — the call returns
`SYSTEM`, `RESOURCE`, and exactly one `CLASS_<resource>` entry per
resource whose CLASS request answered 200, each with one
`TABLE_<resource>_<class>` entry per class whose TABLE request answered 200,
non-200 CLASS and TABLE levels being skipped.  But a non-200 at the SYSTEM
level returns `None`, and a timeout or other raised exception at any level
makes the whole call return `None` — the accumulated metadata is discarded
(see the counterexample). -/
theorem c4_metadata_cascade_amended (oracle : String → String → MetaOutcome) :
    (∀ sysM, oracle "METADATA-SYSTEM" "*" = .resp 200 sysM →
      ((∀ s2 resM, oracle "METADATA-RESOURCE" "0" = .resp s2 resM → s2 ≠ 200 →
          get_metadata true oracle = some [("SYSTEM", sysM)])
       ∧ (oracle "METADATA-RESOURCE" "0" = .raise →
          get_metadata true oracle = none)
       ∧ (∀ resM, oracle "METADATA-RESOURCE" "0" = .resp 200 resM →
          (∀ id, oracle "METADATA-CLASS" id ≠ .raise) →
          (∀ id, oracle "METADATA-TABLE" id ≠ .raise) →
          get_metadata true oracle
            = some (("SYSTEM", sysM) :: ("RESOURCE", resM)
                :: specClassAcc oracle resM.resources))))
    ∧ (∀ s sysM, oracle "METADATA-SYSTEM" "*" = .resp s sysM → s ≠ 200 →
        get_metadata true oracle = none) := by
  constructor
  · intro sysM hsys
    refine ⟨?_, ?_, ?_⟩
    · intro s2 resM hres hs2
      unfold get_metadata
      rw [hsys, hres]
      simp [hs2]
    · intro hraise
      unfold get_metadata
      rw [hsys, hraise]
      simp
    · intro resM hres hcl htb
      have hloop : classLoop oracle resM.resources
          = .ok (specClassAcc oracle resM.resources) :=
        classLoop_eq_spec oracle resM.resources hcl htb
      unfold get_metadata
      rw [hsys, hres]
      simp [hloop]
  · intro s sysM hsys hs
    unfold get_metadata
    rw [hsys]
    simp [hs]

/-- The C4 witness oracle: SYSTEM and RESOURCE succeed; the one resource
`Property` has classes `RES` and `COM`; the TABLE request for `Property:RES`
is answered 401 while the one for `Property:COM` succeeds. -/
def c4PartialOracle : String → String → MetaOutcome :=
  fun t id =>
    if t = "METADATA-SYSTEM" then .resp 200 ⟨[], [], [], []⟩
    else if t = "METADATA-RESOURCE" then
      .resp 200 ⟨[], [[("ResourceID", "Property")]], [], []⟩
    else if t = "METADATA-CLASS" then
      .resp 200 ⟨[], [], [[("ClassName", "RES")], [("ClassName", "COM")]], []⟩
    else if id = "Property:RES" then .resp 401 ⟨[], [], [], []⟩
    else .resp 200 ⟨[], [], [], [[("SystemName", "ListPrice")]]⟩

theorem c4PartialOracle_no_raise (t id : String) :
    c4PartialOracle t id ≠ MetaOutcome.raise := by
  intro h
  unfold c4PartialOracle at h
  by_cases h1 : t = "METADATA-SYSTEM"
  · rw [if_pos h1] at h
    exact MetaOutcome.noConfusion h
  · rw [if_neg h1] at h
    by_cases h2 : t = "METADATA-RESOURCE"
    · rw [if_pos h2] at h
      exact MetaOutcome.noConfusion h
    · rw [if_neg h2] at h
      by_cases h3 : t = "METADATA-CLASS"
      · rw [if_pos h3] at h
        exact MetaOutcome.noConfusion h
      · rw [if_neg h3] at h
        by_cases h4 : id = "Property:RES"
        · rw [if_pos h4] at h
          exact MetaOutcome.noConfusion h
        · rw [if_neg h4] at h
          exact MetaOutcome.noConfusion h

/-- C4 witness: with the TABLE request for class `RES` denied (401) and the
one for class `COM` succeeding, `get_metadata` returns SYSTEM, RESOURCE, the
`CLASS_Property` entry, and exactly the `TABLE_Property_COM` entry — the
failed TABLE level is skipped, not fatal. -/
theorem c4_metadata_cascade_amended_witness :
    get_metadata true c4PartialOracle
      = some [("SYSTEM", ⟨[], [], [], []⟩),
              ("RESOURCE", ⟨[], [[("ResourceID", "Property")]], [], []⟩),
              ("CLASS_Property",
                ⟨[], [], [[("ClassName", "RES")], [("ClassName", "COM")]], []⟩),
              ("TABLE_Property_COM",
                ⟨[], [], [], [[("SystemName", "ListPrice")]]⟩)] := by
  have h := ((c4_metadata_cascade_amended c4PartialOracle).1 _ rfl).2.2 _ rfl
    (fun id => c4PartialOracle_no_raise "METADATA-CLASS" id)
    (fun id => c4PartialOracle_no_raise "METADATA-TABLE" id)
  rw [h]
  rfl
